import Mathlib

/-!
Shallow embedding of the two scripts of this repository: collect.py (author
resolution and work pagination against a book catalog) and compare_themes.py
(subject-count comparison arithmetic).  Strings are Lean String values, JSON
documents are fixed-schema structures with Option fields for the optional
parts, HTTP responses are modeled as total oracles (transport failures are
out of scope of the properties settled here), and Python numbers are modeled
exactly: int as Int, float results of division as rationals, square roots as
real numbers.
-/

/-- Stable insertion of x into a list: x goes in front of the first element y
such that r x y holds, so among elements with equal sort keys the inserted
element keeps its earlier position.  Helper for sortBy. -/
def insertBy {α : Type} (r : α → α → Bool) (x : α) : List α → List α
  | [] => [x]
  | y :: ys => if r x y then x :: y :: ys else y :: insertBy r x ys

/-- Stable sort by the relation r, where r x y means x may come no later than
y.  This models Python sorted, which is a stable sort; with r the non-strict
comparison on the sort key, ties keep the original order. -/
def sortBy {α : Type} (r : α → α → Bool) : List α → List α
  | [] => []
  | x :: xs => insertBy r x (sortBy r xs)

/-- Lexicographic code-point comparison of character lists, as Python string
comparison. -/
def leChars : List Char → List Char → Bool
  | [], _ => true
  | _ :: _, [] => false
  | a :: as, b :: bs => if a = b then leChars as bs else decide (a < b)

namespace Collect

/-- Python str.strip on a list of characters: remove leading and trailing
whitespace. -/
def stripChars (l : List Char) : List Char :=
  ((l.dropWhile Char.isWhitespace).reverse.dropWhile Char.isWhitespace).reverse

/-- Python str.strip on a String. -/
def pyStrip (s : String) : String :=
  String.mk (stripChars s.data)

/-- Whole-list matcher for the regex fragment of zero or more decimal digits
followed by the single letter A. -/
def digitsStarA : List Char → Bool
  | [] => false
  | [c] => c == 'A'
  | c :: cs => c.isDigit && digitsStarA cs

/-- Whole-list matcher for the regex fragment of one or more decimal digits
followed by the single letter A. -/
def digitsPlusA : List Char → Bool
  | [] => false
  | c :: cs => c.isDigit && digitsStarA cs

/-- collect.py is_author_key: full match of the pattern OL, then one or more
digits, then A, on the stripped input. -/
def is_author_key (s : String) : Bool :=
  match stripChars s.data with
  | 'O' :: 'L' :: rest => digitsPlusA rest
  | _ => false

/-- Whole-list matcher for zero or more digits followed by one letter. -/
def digitsStarLetter : List Char → Bool
  | [] => false
  | [c] => c.isAlpha
  | c :: cs => c.isDigit && digitsStarLetter cs

/-- Whole-list matcher for one or more digits followed by one letter. -/
def digitsPlusLetter : List Char → Bool
  | [] => false
  | c :: cs => c.isDigit && digitsStarLetter cs

/-- The catalog-key shape as the spec words it: two letters, then digits,
then a letter, checked after trimming.  Stated from the spec wording, for
comparison with is_author_key. -/
def specKeyShape (s : String) : Bool :=
  match stripChars s.data with
  | a :: b :: rest => a.isAlpha && b.isAlpha && digitsPlusLetter rest
  | _ => false

/-- One search hit of the author-search response, with the fields the code
reads; each is optional as in the loosely typed JSON. -/
structure Hit where
  work_count : Option Int
  key : Option String
  id : Option String
  name : Option String
deriving DecidableEq

/-- Python truthiness on an optional string: None and the empty string are
falsy; every other string is kept. -/
def truthy (o : Option String) : Option String :=
  match o with
  | some s => if s = "" then none else some s
  | none => none

/-- Python max over a nonempty list with a key function: the first element
with the maximal key wins, since max only replaces on strictly greater. -/
def bestByWorkCount (h : Hit) (hs : List Hit) : Hit :=
  hs.foldl (fun b x => if (x.work_count.getD 0) > (b.work_count.getD 0) then x else b) h

/-- collect.py pick_best_author: raises SystemExit on an empty hit list,
otherwise picks the hit with the most work_count, reads its key falling back
to id then the empty string, keeps only the trailing path segment of a key of
the form /authors/OLxxxxA, and returns the pair of key and name. -/
def pick_best_author : List Hit → Except String (String × String)
  | [] => Except.error "No author found by that name."
  | h :: hs =>
    let best := bestByWorkCount h hs
    let key0 := ((truthy best.key).orElse (fun _ => truthy best.id)).getD ""
    let key1 := if key0.startsWith "/authors/" then (key0.splitOn "/").getLastD "" else key0
    Except.ok (key1, (truthy best.name).getD "")

/-- The author-by-key response body: the code reads only its name field. -/
structure AuthorDoc where
  name : Option String

/-- The catalog API as a total oracle: an author-by-key fetch and an
author-name search. -/
structure Api where
  author : String → AuthorDoc
  search : String → List Hit

/-- A network call made by the resolver. -/
inductive NetCall where
  | fetchAuthor (key : String)
  | searchName (q : String)
deriving DecidableEq

/-- The search branch of collect.py resolve_author: run pick_best_author on
the docs of the search response and fall back to the query string when the
chosen candidate has no name. -/
def searchResult (api : Api) (query : String) : Except String (String × String) :=
  match pick_best_author (api.search query) with
  | Except.error e => Except.error e
  | Except.ok (key, name) => Except.ok (key, if name = "" then query else name)

/-- collect.py resolve_author, instrumented with the list of network calls it
makes.  A key-shaped query is fetched directly by key with the name read from
the record, defaulting to the query; any other query goes through one name
search. -/
def resolve_author (api : Api) (query : String) :
    Except String (String × String) × List NetCall :=
  if is_author_key query then
    (Except.ok (query, (api.author query).name.getD query), [NetCall.fetchAuthor query])
  else
    (searchResult api query, [NetCall.searchName query])

/-- An API oracle whose search always comes back empty and whose author
records carry no name field. -/
def apiEmpty : Api :=
  { author := fun _ => { name := none }, search := fun _ => [] }

/-- A JSON array element of a subject field: either a string or some
non-string value, which the code skips. -/
inductive JVal where
  | str (s : String)
  | nonstr
deriving DecidableEq

/-- One entry of a works page, with the fields the code reads; a subject
field that is missing or null reads as the empty list through the
Python idiom of get followed by or. -/
structure Entry where
  key : Option String
  title : Option String
  subjects : Option (List JVal)
  subject_places : Option (List JVal)
  subject_times : Option (List JVal)
  subject_people : Option (List JVal)
  first_publish_year : Option Int
deriving DecidableEq

/-- One emitted work record of the collector. -/
structure Work where
  key : Option String
  title : Option String
  subjects : List String
  first_publish_year : Option Int
deriving DecidableEq

/-- Keep the string values of a subject field and strip each, skipping
non-string values. -/
def stripStrs (vals : List JVal) : List String :=
  vals.filterMap fun v => match v with
    | JVal.str s => some (pyStrip s)
    | JVal.nonstr => none

/-- Python sorted on a list of strings. -/
def sortStrings (l : List String) : List String :=
  sortBy (fun a b => leChars a.data b.data) l

/-- The deduplicated, sorted set of stripped subject labels of one entry,
unioned over the four label-bearing fields in the order the code visits
them. -/
def entrySubjects (e : Entry) : List String :=
  sortStrings (List.dedup (stripStrs
    (e.subjects.getD [] ++ e.subject_places.getD [] ++
      e.subject_times.getD [] ++ e.subject_people.getD [])))

/-- Build the emitted record of one entry. -/
def toWork (e : Entry) : Work :=
  { key := e.key
  , title := e.title
  , subjects := entrySubjects e
  , first_publish_year := e.first_publish_year }

/-- The pagination loop of collect.py fetch_works: at most n more pages,
current offset given; stop on an empty page, else emit the page and continue
at offset plus page size.  The works oracle maps an offset to the entries of
the page at that offset; the inter-page sleep is a no-op here. -/
def fetch_works_loop (api : Nat → List Entry) (page_size : Nat) :
    Nat → Nat → List Work
  | 0, _ => []
  | n + 1, offset =>
    let entries := api offset
    if entries.isEmpty then []
    else entries.map toWork ++ fetch_works_loop api page_size n (offset + page_size)

/-- collect.py fetch_works: paginate from offset 0 within the page budget. -/
def fetch_works (api : Nat → List Entry) (max_pages : Nat) (page_size : Nat) :
    List Work :=
  fetch_works_loop api page_size max_pages 0

/-- An entry whose subjects field holds one all-whitespace string and one
string with surrounding whitespace. -/
def entryWS : Entry :=
  { key := none
  , title := none
  , subjects := some [JVal.str "   ", JVal.str " Mystery "]
  , subject_places := none
  , subject_times := none
  , subject_people := none
  , first_publish_year := none }

/-- A works oracle with a single one-entry page at offset 0. -/
def apiWS : Nat → List Entry :=
  fun off => if off = 0 then [entryWS] else []

end Collect

namespace CompareThemes

variable {α : Type} [DecidableEq α]

/-- One element of the themes array of a theme document; a missing subject or
count field is modeled as none.  A count field that is present is modeled as
the integer it converts to. -/
structure ThemeEntry where
  subject : Option String
  count : Option Int
deriving DecidableEq

/-- A loaded theme document, with the fields the code reads. -/
structure ThemeJson where
  author_name : Option String
  author_key : Option String
  themes : Option (List ThemeEntry)
deriving DecidableEq

/-- Python dict insertion: an existing key keeps its position and gets the
new value; a new key is appended. -/
def dictInsert (m : List (String × Int)) (k : String) (v : Int) :
    List (String × Int) :=
  if m.any fun p => decide (p.1 = k) then
    m.map fun p => if p.1 = k then (k, v) else p
  else m ++ [(k, v)]

/-- The dict comprehension of compare_themes.py to_map, entry by entry: an
entry whose subject or count field is missing raises a KeyError, modeled as
an error value. -/
def entriesToMap : List ThemeEntry → List (String × Int) →
    Except String (List (String × Int))
  | [], acc => Except.ok acc
  | t :: ts, acc =>
    match t.subject, t.count with
    | some s, some c => entriesToMap ts (dictInsert acc s c)
    | none, _ => Except.error "KeyError: subject"
    | some _, none => Except.error "KeyError: count"

/-- compare_themes.py to_map: a document without a themes field reads as the
empty list; each entry contributes its subject and integer count. -/
def to_map (tj : ThemeJson) : Except String (List (String × Int)) :=
  entriesToMap (tj.themes.getD []) []

/-- compare_themes.py jaccard on two key sets. -/
def jaccard (set1 set2 : Finset α) : ℚ :=
  if set1 = ∅ ∧ set2 = ∅ then 1
  else ((set1 ∩ set2).card : ℚ) / ((max 1 (set1 ∪ set2).card : ℕ) : ℚ)

/-- Python dict get with default 0 on an association list of rationals. -/
def dget (v : List (α × ℚ)) (k : α) : ℚ :=
  ((v.find? fun p => decide (p.1 = k)).map Prod.snd).getD 0

/-- compare_themes.py normalize: divide each count by the sum of all counts,
with a zero sum replaced by 1 through the Python idiom of or applied to the
sum. -/
def normalize (counts : List (α × Int)) : List (α × ℚ) :=
  let t : Int := (counts.map Prod.snd).sum
  let s : Int := if t = 0 then 1 else t
  counts.map fun p => (p.1, (p.2 : ℚ) / (s : ℚ))

/-- The key set of a rational-valued vector. -/
def keyFinset (v : List (α × ℚ)) : Finset α :=
  (v.map Prod.fst).toFinset

/-- The dot product of two vectors over the union of their key sets, missing
keys reading as 0. -/
def dotOver (v1 v2 : List (α × ℚ)) : ℚ :=
  Finset.sum (keyFinset v1 ∪ keyFinset v2) fun k => dget v1 k * dget v2 k

/-- The Euclidean norm of a vector over a given key set. -/
noncomputable def normOver (keys : Finset α) (v : List (α × ℚ)) : ℝ :=
  Real.sqrt ((Finset.sum keys (fun k => dget v k ^ 2) : ℚ) : ℝ)

open Classical in
/-- compare_themes.py cosine_similarity: the dot product over the union of
the key sets divided by the product of the two Euclidean norms over that
union, and 0 when either norm is 0. -/
noncomputable def cosine_similarity (v1 v2 : List (α × ℚ)) : ℝ :=
  let keys := keyFinset v1 ∪ keyFinset v2
  let n1 := normOver keys v1
  let n2 := normOver keys v2
  if n1 = 0 ∨ n2 = 0 then 0 else ((dotOver v1 v2 : ℚ) : ℝ) / (n1 * n2)

/-- The key list of a counts mapping, each key once, in first-seen order. -/
def keysOf (c : List (α × Int)) : List α :=
  (c.map Prod.fst).dedup

/-- Python sorted with a rational key function and reverse set: stable
descending sort. -/
def sortDescBy (f : α → ℚ) (l : List α) : List α :=
  sortBy (fun a b => decide (f b ≤ f a)) l

/-- The shared-subject ranking of compare_themes.py main: the keys present in
both counts, sorted descending by the sum of the two normalized
frequencies. -/
def sharedList (c1 c2 : List (α × Int)) : List α :=
  sortDescBy (fun k => dget (normalize c1) k + dget (normalize c2) k)
    ((keysOf c1).filter fun k => decide (k ∈ keysOf c2))

/-- The distinctive-for-1 ranking of compare_themes.py main: keys of counts1
absent from counts2 sorted descending by the author-1 frequency, then the
shared ranking re-sorted descending by the frequency gap of author 1 over
author 2. -/
def diff1List (c1 c2 : List (α × Int)) : List α :=
  sortDescBy (fun k => dget (normalize c1) k)
      ((keysOf c1).filter fun k => decide (k ∉ keysOf c2)) ++
    sortDescBy (fun k => dget (normalize c1) k - dget (normalize c2) k)
      (sharedList c1 c2)

/-- The distinctive-for-2 ranking, the symmetric construction. -/
def diff2List (c1 c2 : List (α × Int)) : List α :=
  sortDescBy (fun k => dget (normalize c2) k)
      ((keysOf c2).filter fun k => decide (k ∉ keysOf c1)) ++
    sortDescBy (fun k => dget (normalize c2) k - dget (normalize c1) k)
      (sharedList c1 c2)

/-- The rendered outputs of compare_themes.py main, with each CSV table and
console block represented by the ranked subjects of its data rows, one row
per listed subject, in order; the cell contents are recomputed from the
counts row by row and carry no further information. -/
structure RenderOut (α : Type) where
  csvSharedRows : List α
  csvD1Rows : List α
  csvD2Rows : List α
  consoleShared : List α
  consoleD1 : List α
  consoleD2 : List α

/-- The rendering portion of compare_themes.py main: the shared table gets a
row per shared subject; the two distinctive tables get rows only for the
first entries of the ranking up to the larger of the top option and 100; the
console blocks echo the first top entries of each ranking. -/
def render (c1 c2 : List (α × Int)) (top : Nat) : RenderOut α :=
  { csvSharedRows := sharedList c1 c2
  , csvD1Rows := (diff1List c1 c2).take (max top 100)
  , csvD2Rows := (diff2List c1 c2).take (max top 100)
  , consoleShared := (sharedList c1 c2).take top
  , consoleD1 := (diff1List c1 c2).take top
  , consoleD2 := (diff2List c1 c2).take top }

/-- A theme document with one entry lacking the subject field. -/
def tjBad : ThemeJson :=
  { author_name := none
  , author_key := none
  , themes := some [{ subject := none, count := some 3 }] }

/-- A counts mapping with 101 distinct subjects, one occurrence each. -/
def c101 : List (Nat × Int) :=
  (List.range 101).map fun i => (i, 1)

end CompareThemes

namespace Collect

/-- C1: counterexample.  The input XY12Z matches the catalog-key shape the
spec describes (two letters, then digits, then a letter, after trimming), yet
the resolver performs a name search on it rather than a direct fetch. -/
theorem C1_counterexample :
    specKeyShape "XY12Z" = true ∧
    (resolve_author apiEmpty "XY12Z").2 = [NetCall.searchName "XY12Z"] := by
  constructor
  · decide
  · decide

/-- C1 (amended): an input is treated as a structured key exactly when its
trimmed form is the literal letters OL, then one or more digits, then the
letter A; such inputs are resolved by exactly one direct fetch and no search,
and every other input is resolved through exactly one name-search call. -/
theorem C1_amended (api : Api) (query : String) :
    (is_author_key query = true →
      (resolve_author api query).2 = [NetCall.fetchAuthor query]) ∧
    (is_author_key query = false →
      (resolve_author api query).2 = [NetCall.searchName query]) := by
  constructor <;> intro h <;> simp [resolve_author, h]

/-- C1 witness: OL34184A is key-shaped and the resolver makes exactly one
fetch call and no search call on it. -/
theorem C1_witness :
    (resolve_author apiEmpty "OL34184A").2 = [NetCall.fetchAuthor "OL34184A"] :=
  (C1_amended apiEmpty "OL34184A").1 (by decide)

/-- C7: when a free-text query (one that is not key-shaped) yields zero
search hits, resolution fails with the user-facing message and no author key
is returned. -/
theorem C7_resolution_failure (api : Api) (query : String)
    (hk : is_author_key query = false) (hs : api.search query = []) :
    (resolve_author api query).1 =
      Except.error "No author found by that name." := by
  simp [resolve_author, hk, searchResult, hs, pick_best_author]

/-- C7 witness: a plain name query against a catalog with no matching
authors terminates resolution with the failure message. -/
theorem C7_witness :
    (resolve_author apiEmpty "Agatha Christie").1 =
      Except.error "No author found by that name." :=
  C7_resolution_failure apiEmpty "Agatha Christie" (by decide) rfl

end Collect

/-- Membership after stable insertion: the inserted element plus the old
elements. -/
theorem mem_insertBy {α : Type} (r : α → α → Bool) (x a : α) (l : List α) :
    a ∈ insertBy r x l ↔ a = x ∨ a ∈ l := by
  induction l with
  | nil => simp [insertBy]
  | cons y ys ih =>
    cases h : r x y
    · simp [insertBy, h, ih]
      tauto
    · simp [insertBy, h, ih]

/-- The stable sort keeps exactly the elements of its input. -/
theorem mem_sortBy {α : Type} (r : α → α → Bool) (a : α) (l : List α) :
    a ∈ sortBy r l ↔ a ∈ l := by
  induction l with
  | nil => simp [sortBy]
  | cons x xs ih => simp [sortBy, mem_insertBy, ih]

/-- Stable insertion grows the length by one. -/
theorem length_insertBy {α : Type} (r : α → α → Bool) (x : α) (l : List α) :
    (insertBy r x l).length = l.length + 1 := by
  induction l with
  | nil => rfl
  | cons y ys ih =>
    cases h : r x y <;> simp [insertBy, h, ih]

/-- The stable sort preserves the length. -/
theorem length_sortBy {α : Type} (r : α → α → Bool) (l : List α) :
    (sortBy r l).length = l.length := by
  induction l with
  | nil => rfl
  | cons x xs ih => simp [sortBy, length_insertBy, ih]

/-- The head of a dropWhile result does not satisfy the predicate. -/
theorem head_dropWhile_false {α : Type} (p : α → Bool) (l : List α) (c : α)
    (h : (l.dropWhile p).head? = some c) : p c = false := by
  induction l with
  | nil => simp [List.dropWhile] at h
  | cons a t ih =>
    cases ha : p a with
    | true =>
      rw [List.dropWhile_cons_of_pos ha] at h
      exact ih h
    | false =>
      rw [List.dropWhile_cons_of_neg (by simp [ha])] at h
      simp only [List.head?_cons, Option.some.injEq] at h
      rw [← h]
      exact ha

/-- A list whose head does not satisfy the predicate is unchanged by
dropWhile. -/
theorem dropWhile_eq_self_of_head {α : Type} (p : α → Bool) (l : List α)
    (h : ∀ c, l.head? = some c → p c = false) : l.dropWhile p = l := by
  cases l with
  | nil => rfl
  | cons a t =>
    have ha := h a rfl
    rw [List.dropWhile_cons_of_neg (by simp [ha])]

/-- dropWhile is idempotent. -/
theorem dropWhile_dropWhile {α : Type} (p : α → Bool) (l : List α) :
    (l.dropWhile p).dropWhile p = l.dropWhile p :=
  dropWhile_eq_self_of_head p _ (fun c hc => head_dropWhile_false p l c hc)

/-- A nonempty dropWhile result keeps the last element of the input. -/
theorem getLast?_dropWhile {α : Type} (p : α → Bool) :
    ∀ l : List α, l.dropWhile p ≠ [] →
      (l.dropWhile p).getLast? = l.getLast? := by
  intro l
  induction l with
  | nil => intro h; exact absurd rfl h
  | cons a t ih =>
    intro h
    cases ha : p a with
    | false =>
      rw [List.dropWhile_cons_of_neg (by simp [ha])]
    | true =>
      rw [List.dropWhile_cons_of_pos ha] at h ⊢
      rw [ih h]
      cases t with
      | nil => simp [List.dropWhile] at h
      | cons b u => exact (List.getLast?_cons_cons).symm

namespace Collect

/-- Stripping is idempotent. -/
theorem stripChars_idem (l : List Char) :
    stripChars (stripChars l) = stripChars l := by
  unfold stripChars
  have h1 : ((((l.dropWhile Char.isWhitespace).reverse.dropWhile
      Char.isWhitespace).reverse).dropWhile Char.isWhitespace) =
      ((l.dropWhile Char.isWhitespace).reverse.dropWhile
        Char.isWhitespace).reverse := by
    apply dropWhile_eq_self_of_head
    intro c hc
    rw [List.head?_reverse] at hc
    have hBne : (l.dropWhile Char.isWhitespace).reverse.dropWhile
        Char.isWhitespace ≠ [] := by
      intro he
      rw [he] at hc
      simp at hc
    rw [getLast?_dropWhile Char.isWhitespace _ hBne] at hc
    rw [List.getLast?_reverse] at hc
    exact head_dropWhile_false Char.isWhitespace l c hc
  rw [h1, List.reverse_reverse, dropWhile_dropWhile]

/-- The data of a stripped string is already stripped. -/
theorem stripChars_pyStrip (s : String) :
    stripChars (pyStrip s).data = (pyStrip s).data := by
  show stripChars (stripChars s.data) = stripChars s.data
  exact stripChars_idem s.data

/-- Every member of a stripped-values list is the strip of some string. -/
theorem eq_pyStrip_of_mem_stripStrs (l : String) (vals : List JVal)
    (h : l ∈ stripStrs vals) : ∃ s, l = pyStrip s := by
  unfold stripStrs at h
  rw [List.mem_filterMap] at h
  obtain ⟨v, hv, hf⟩ := h
  cases v with
  | str s => exact ⟨s, by simpa using hf.symm⟩
  | nonstr => simp at hf

/-- Every subject label of an entry is the strip of some source string. -/
theorem eq_pyStrip_of_mem_entrySubjects (e : Entry) (l : String)
    (h : l ∈ entrySubjects e) : ∃ s, l = pyStrip s := by
  unfold entrySubjects sortStrings at h
  rw [mem_sortBy, List.mem_dedup] at h
  exact eq_pyStrip_of_mem_stripStrs l _ h

/-- Every work emitted by the pagination loop is built from some entry. -/
theorem exists_entry_of_mem_fetch_works_loop (api : Nat → List Entry)
    (ps : Nat) :
    ∀ (n offset : Nat) (w : Work), w ∈ fetch_works_loop api ps n offset →
      ∃ e, w = toWork e := by
  intro n
  induction n with
  | zero => intro offset w h; simp [fetch_works_loop] at h
  | succ n ih =>
    intro offset w h
    simp only [fetch_works_loop] at h
    split at h
    · simp at h
    · rcases List.mem_append.mp h with hmap | hrec
      · obtain ⟨e, _, rfl⟩ := List.mem_map.mp hmap
        exact ⟨e, rfl⟩
      · exact ih _ _ hrec

/-- C2: counterexample.  An entry whose subjects field holds a
whitespace-only string makes the paginator emit a work record whose subjects
set contains the empty label. -/
theorem C2_counterexample :
    (fetch_works apiWS 200 100).map Work.subjects = [["", "Mystery"]] := by
  decide

/-- C2 (amended): every subject label in every work record emitted by the
paginator carries no leading or trailing whitespace, being the strip of some
source string; the label may however be the empty string when the source
value was empty or all whitespace. -/
theorem C2_amended (api : Nat → List Entry) (max_pages page_size : Nat)
    (w : Work) (hw : w ∈ fetch_works api max_pages page_size)
    (l : String) (hl : l ∈ w.subjects) :
    stripChars l.data = l.data := by
  obtain ⟨e, rfl⟩ :=
    exists_entry_of_mem_fetch_works_loop api page_size max_pages 0 w hw
  obtain ⟨s, rfl⟩ := eq_pyStrip_of_mem_entrySubjects e l hl
  exact stripChars_pyStrip s

/-- C2 witness: the label Mystery emitted for the concrete oracle is indeed
stripped. -/
theorem C2_witness :
    stripChars (String.data "Mystery") = String.data "Mystery" :=
  C2_amended apiWS 200 100 (toWork entryWS) (by decide) "Mystery" (by decide)

end Collect

namespace CompareThemes

variable {α : Type} [DecidableEq α]

omit [DecidableEq α] in
/-- normalize written as one map, with the divisor spelled out. -/
theorem normalize_eq_map (counts : List (α × Int)) :
    normalize counts = counts.map fun p => (p.1, (p.2 : ℚ) /
      ((if (counts.map Prod.snd).sum = 0 then 1 else
        (counts.map Prod.snd).sum : Int) : ℚ)) := rfl

omit [DecidableEq α] in
/-- Summing the second components after dividing each by a fixed rational is
dividing the total by it. -/
theorem map_div_sum (l : List (α × Int)) (s : ℚ) :
    ((l.map fun p => (p.1, (p.2 : ℚ) / s)).map Prod.snd).sum =
      (((l.map Prod.snd).sum : Int) : ℚ) / s := by
  induction l with
  | nil => simp
  | cons a t ih =>
    simp only [List.map_cons, List.sum_cons, ih]
    push_cast
    ring

/-- A list of non-negative integers with zero sum is all zeros. -/
theorem int_all_zero_of_sum_zero (l : List Int) (hnn : ∀ v ∈ l, 0 ≤ v)
    (hs : l.sum = 0) : ∀ v ∈ l, v = 0 := by
  induction l with
  | nil => intro v hv; simp at hv
  | cons a t ih =>
    intro v hv
    have hts : 0 ≤ t.sum :=
      List.sum_nonneg fun x hx => hnn x (List.mem_cons_of_mem a hx)
    have ha : 0 ≤ a := hnn a (List.mem_cons_self a t)
    rw [List.sum_cons] at hs
    rcases List.mem_cons.mp hv with rfl | hvt
    · omega
    · exact ih (fun x hx => hnn x (List.mem_cons_of_mem a hx)) (by omega) v hvt

omit [DecidableEq α] in
/-- C4: normalize of the empty mapping is empty; on non-negative counts with
positive total the normalized values, each the count divided by the total,
sum to 1; and on a non-empty mapping of non-negative counts with zero total
the divisor is taken to be 1, so every normalized value is 0. -/
theorem C4_normalize (counts : List (α × Int)) :
    (normalize ([] : List (α × Int)) = []) ∧
    ((∀ p ∈ counts, 0 ≤ p.2) → 0 < (counts.map Prod.snd).sum →
      ((normalize counts).map Prod.snd).sum = 1) ∧
    (counts ≠ [] → (∀ p ∈ counts, 0 ≤ p.2) → (counts.map Prod.snd).sum = 0 →
      ∀ q ∈ normalize counts, q.2 = 0) := by
  refine ⟨rfl, ?_, ?_⟩
  · intro hnn hpos
    have htne : (counts.map Prod.snd).sum ≠ 0 := ne_of_gt hpos
    rw [normalize_eq_map, map_div_sum, if_neg htne]
    exact div_self (by exact_mod_cast htne)
  · intro hne hnn hzero q hq
    rw [normalize_eq_map] at hq
    obtain ⟨p, hp, rfl⟩ := List.mem_map.mp hq
    have hz : p.2 = 0 := by
      refine int_all_zero_of_sum_zero (counts.map Prod.snd) ?_ hzero p.2
        (List.mem_map_of_mem Prod.snd hp)
      intro v hv
      obtain ⟨r, hr, rfl⟩ := List.mem_map.mp hv
      exact hnn r hr
    simp [hz]

/-- C4 witness: a concrete mapping with total 4 has normalized values
summing to 1. -/
theorem C4_witness :
    ((normalize [(("a" : String), (3 : Int)), ("b", 1)]).map Prod.snd).sum
      = 1 :=
  (C4_normalize [("a", 3), ("b", 1)]).2.1 (by decide) (by decide)

/-- C5: jaccard is intersection size over union size whenever a set is
non-empty, is 1 on two empty sets, is 1 on an equal non-empty pair, and is 0
against the empty set. -/
theorem C5_jaccard (set1 set2 : Finset α) :
    (set1 ≠ ∅ ∨ set2 ≠ ∅ →
      jaccard set1 set2 =
        ((set1 ∩ set2).card : ℚ) / ((set1 ∪ set2).card : ℚ)) ∧
    (set1 = ∅ → set2 = ∅ → jaccard set1 set2 = 1) ∧
    (set1 ≠ ∅ → jaccard set1 set1 = 1) ∧
    (set1 ≠ ∅ → jaccard set1 ∅ = 0) := by
  refine ⟨?_, ?_, ?_, ?_⟩
  · intro hne
    have hcond : ¬ (set1 = ∅ ∧ set2 = ∅) := by tauto
    have hcard : 1 ≤ (set1 ∪ set2).card := by
      have hu : set1 ∪ set2 ≠ ∅ := by
        rw [Ne, Finset.union_eq_empty]
        tauto
      exact Finset.card_pos.mpr (Finset.nonempty_iff_ne_empty.mpr hu)
    unfold jaccard
    rw [if_neg hcond, Nat.max_eq_right hcard]
  · intro h1 h2
    unfold jaccard
    rw [if_pos ⟨h1, h2⟩]
  · intro hne
    have hcard : 1 ≤ set1.card :=
      Finset.card_pos.mpr (Finset.nonempty_iff_ne_empty.mpr hne)
    unfold jaccard
    rw [if_neg (by tauto), Finset.inter_self, Finset.union_self,
      Nat.max_eq_right hcard]
    exact div_self (by exact_mod_cast Nat.one_le_iff_ne_zero.mp hcard)
  · intro hne
    unfold jaccard
    rw [if_neg (by tauto)]
    simp

/-- C5 witness: jaccard of a non-empty set with itself is 1. -/
theorem C5_witness : jaccard ({"a"} : Finset String) {"a"} = 1 :=
  (C5_jaccard {"a"} {"a"}).2.2.1 (by decide)

/-- C6: cosine similarity is the dot product over the union of the key sets
divided by the product of the two Euclidean norms over that union, and is 0
whenever either norm is 0. -/
theorem C6_cosine (v1 v2 : List (α × ℚ)) :
    ((normOver (keyFinset v1 ∪ keyFinset v2) v1 = 0 ∨
        normOver (keyFinset v1 ∪ keyFinset v2) v2 = 0) →
      cosine_similarity v1 v2 = 0) ∧
    (normOver (keyFinset v1 ∪ keyFinset v2) v1 ≠ 0 →
      normOver (keyFinset v1 ∪ keyFinset v2) v2 ≠ 0 →
      cosine_similarity v1 v2 =
        ((dotOver v1 v2 : ℚ) : ℝ) /
          (normOver (keyFinset v1 ∪ keyFinset v2) v1 *
            normOver (keyFinset v1 ∪ keyFinset v2) v2)) := by
  constructor
  · intro h
    simp only [cosine_similarity]
    rw [if_pos h]
  · intro h1 h2
    simp only [cosine_similarity]
    rw [if_neg (by tauto)]

/-- C6 witness: against an empty vector the first norm is 0 and the cosine
similarity collapses to 0. -/
theorem C6_witness :
    cosine_similarity ([] : List (String × ℚ)) [("a", 1)] = 0 := by
  refine (C6_cosine ([] : List (String × ℚ)) [("a", 1)]).1 (Or.inl ?_)
  unfold normOver
  have hz : (Finset.sum
      (keyFinset ([] : List (String × ℚ)) ∪ keyFinset [(("a" : String), (1 : ℚ))])
      fun k => dget ([] : List (String × ℚ)) k ^ 2) = 0 :=
    Finset.sum_eq_zero fun k _ => by simp [dget]
  rw [hz]
  simp

omit [DecidableEq α] in
/-- C10: normalize keeps exactly the key list of its input, and a key with
count 0 stays present mapped to frequency 0. -/
theorem C10_normalize_keys (counts : List (α × Int)) :
    (normalize counts).map Prod.fst = counts.map Prod.fst ∧
    ∀ k v, (k, v) ∈ counts → v = 0 → (k, (0 : ℚ)) ∈ normalize counts := by
  constructor
  · rw [normalize_eq_map, List.map_map]
    rfl
  · intro k v hm hv
    subst hv
    rw [normalize_eq_map]
    exact List.mem_map.mpr ⟨(k, 0), hm, by simp⟩

/-- C10 witness: the subject with count 0 stays in the normalized mapping
with value 0. -/
theorem C10_witness : (("a" : String), (0 : ℚ)) ∈ normalize [("a", (0 : Int))] :=
  (C10_normalize_keys [("a", 0)]).2 "a" 0 (by decide) rfl

end CompareThemes

namespace CompareThemes

variable {α : Type} [DecidableEq α]

/-- A themes list containing an entry with a missing subject or count field
makes the extraction raise, whatever the accumulator. -/
theorem entriesToMap_error (t : ThemeEntry)
    (hbad : t.subject = none ∨ t.count = none) :
    ∀ ts : List ThemeEntry, t ∈ ts →
      ∀ acc, ∃ e, entriesToMap ts acc = Except.error e := by
  intro ts
  induction ts with
  | nil => intro ht; exact absurd ht (List.not_mem_nil t)
  | cons hd tl ih =>
    intro ht acc
    cases hsub : hd.subject with
    | none => exact ⟨"KeyError: subject", by simp [entriesToMap, hsub]⟩
    | some s =>
      cases hcnt : hd.count with
      | none => exact ⟨"KeyError: count", by simp [entriesToMap, hsub, hcnt]⟩
      | some c =>
        have htl : t ∈ tl := by
          rcases List.mem_cons.mp ht with rfl | htl
          · rcases hbad with h | h
            · rw [hsub] at h
              exact absurd h (by simp)
            · rw [hcnt] at h
              exact absurd h (by simp)
          · exact htl
        obtain ⟨e, he⟩ := ih htl (dictInsert acc s c)
        exact ⟨e, by simp [entriesToMap, hsub, hcnt, he]⟩

/-- C3: counterexample.  A theme entry lacking the subject field makes the
count extraction raise rather than default the value. -/
theorem C3_counterexample :
    to_map tjBad = Except.error "KeyError: subject" := rfl

/-- C3 (amended): only the themes container is treated permissively, a
document without it reading as the empty mapping; a theme entry missing its
subject or count field raises an error that aborts the extraction instead of
defaulting the field. -/
theorem C3_amended (tj : ThemeJson) :
    (tj.themes = none → to_map tj = Except.ok []) ∧
    (∀ ts, tj.themes = some ts → ∀ t ∈ ts,
      (t.subject = none ∨ t.count = none) →
      ∃ e, to_map tj = Except.error e) := by
  constructor
  · intro h
    simp [to_map, h, entriesToMap]
  · intro ts hts t ht hbad
    obtain ⟨e, he⟩ := entriesToMap_error t hbad ts ht []
    exact ⟨e, by simp [to_map, hts, he]⟩

/-- C3 witness: a document without a themes field extracts to the empty
mapping. -/
theorem C3_witness :
    to_map { author_name := none, author_key := none, themes := none } =
      Except.ok [] :=
  (C3_amended { author_name := none, author_key := none, themes := none }).1 rfl

/-- C8: the distinctive-for-1 ranking is the keys exclusive to counts1
sorted descending by the author-1 frequency, concatenated with the shared
ranking sorted descending by the frequency gap of author 1 over author 2;
on the mapping with single subject x against the empty mapping the ranking
is exactly the list holding x. -/
theorem C8_distinctive1 (c1 c2 : List (α × Int)) :
    diff1List c1 c2 =
      sortDescBy (fun k => dget (normalize c1) k)
          ((keysOf c1).filter fun k => decide (k ∉ keysOf c2)) ++
        sortDescBy (fun k => dget (normalize c1) k - dget (normalize c2) k)
          (sharedList c1 c2) ∧
    diff1List [(("x" : String), (5 : Int))] ([] : List (String × Int)) =
      ["x"] := by
  refine ⟨rfl, ?_⟩
  decide

/-- C9: counterexample.  With 101 exclusive subjects for author 1 and the
default top of 20, the distinctive-for-1 CSV table holds only 100 data rows
while the ranked list holds 101 entries, so the table is not rendered in
full. -/
theorem C9_counterexample :
    (render c101 ([] : List (Nat × Int)) 20).csvD1Rows.length = 100 ∧
    (diff1List c101 ([] : List (Nat × Int))).length = 101 := by
  have hmap : c101.map Prod.fst = List.range 101 := by
    unfold c101
    rw [List.map_map]
    exact List.map_id (List.range 101)
  have hkeys : keysOf c101 = List.range 101 := by
    unfold keysOf
    rw [hmap]
    exact List.dedup_eq_self.mpr (List.nodup_range 101)
  have hf1 : ((keysOf c101).filter fun k =>
      decide (k ∉ keysOf ([] : List (Nat × Int)))) = keysOf c101 := by
    apply List.filter_eq_self.mpr
    intro a _
    simp [keysOf]
  have hshared : sharedList c101 ([] : List (Nat × Int)) = [] := by
    unfold sharedList
    have hfe : ((keysOf c101).filter fun k =>
        decide (k ∈ keysOf ([] : List (Nat × Int)))) = [] := by
      apply List.filter_eq_nil_iff.mpr
      intro a _
      simp [keysOf]
    rw [hfe]
    rfl
  have hlen : (diff1List c101 ([] : List (Nat × Int))).length = 101 := by
    unfold diff1List sortDescBy
    rw [List.length_append, length_sortBy, length_sortBy, hf1, hshared,
      hkeys]
    simp
  refine ⟨?_, hlen⟩
  simp only [render]
  rw [List.length_take, hlen]
  decide

/-- C9 (amended): the shared table is rendered in full, one data row per
shared subject in ranked order; the two distinctive tables are truncated to
the first entries of their rankings up to the larger of top and 100; the
console echoes only the first top entries of each of the three rankings. -/
theorem C9_amended (c1 c2 : List (α × Int)) (top : Nat) :
    (render c1 c2 top).csvSharedRows = sharedList c1 c2 ∧
    (render c1 c2 top).csvD1Rows = (diff1List c1 c2).take (max top 100) ∧
    (render c1 c2 top).csvD2Rows = (diff2List c1 c2).take (max top 100) ∧
    (render c1 c2 top).consoleShared = (sharedList c1 c2).take top ∧
    (render c1 c2 top).consoleD1 = (diff1List c1 c2).take top ∧
    (render c1 c2 top).consoleD2 = (diff2List c1 c2).take top :=
  ⟨rfl, rfl, rfl, rfl, rfl, rfl⟩

end CompareThemes
